import Mathlib

/-!
Verification of the inline-chat prompt-building core and the Copilot CLI
skills-location resolver of this repository.

The prompt-building components (`FileContextElement`, `FileSelectionElement`,
`ToolCallRoundsElement` of `inlineChat2Prompt`) are shallowly embedded below;
their implementation module is not part of the source tree (only its test
suite is), so those definitions are modelled from the specification document,
as marked in their doc comments.  `copilotCLISkills.ts` is present in the
source tree and is translated directly.

Text is modelled as `List Char`; a document line is one such list.
-/

namespace VCChat

/-- Modelled from the spec: a `DocumentSnapshot` — immutable, versioned view
of a text file: version number, ordered sequence of lines (0-based),
language identifier and a stable path. -/
structure Snapshot where
  version : Nat
  lines : List (List Char)
  languageId : List Char
  path : String
deriving DecidableEq

/-- Modelled from the spec: a `Position` — 0-based (line, column). -/
structure Pos where
  line : Nat
  column : Nat
deriving DecidableEq

/-- Modelled from the spec: a `Range` — start and end positions. -/
structure SelRange where
  startPos : Pos
  endPos : Pos
deriving DecidableEq

/-- Modelled from the spec: a line is *blank* if it is empty or contains only
whitespace. -/
def isBlank (line : List Char) : Bool :=
  line.all (fun c => c.isWhitespace)

/-- Line lookup with the empty line as out-of-range default. -/
def lineAt (lines : List (List Char)) (i : Nat) : List Char :=
  lines.getD i []

/-- Modelled from the spec: the fixed window radius `R = 2` of the
Line-Window Selector. -/
def windowRadius : Nat := 2

/-- Modelled from the spec: extend the lower window bound outward (downward)
past consecutive blank lines until a non-blank line or the file start. -/
def extendLo (lines : List (List Char)) : Nat → Nat
  | 0 => 0
  | lo + 1 => if isBlank (lineAt lines lo) then extendLo lines lo else lo + 1

/-- Fuelled worker for `extendHi`; the fuel bounds the number of upward
steps, each of which requires the next line to exist and be blank. -/
def extendHiAux (lines : List (List Char)) : Nat → Nat → Nat
  | 0, hi => hi
  | fuel + 1, hi =>
    if hi + 1 < lines.length ∧ isBlank (lineAt lines (hi + 1)) = true then
      extendHiAux lines fuel (hi + 1)
    else hi

/-- Modelled from the spec: extend the upper window bound outward (upward)
past consecutive blank lines until a non-blank line or the file end. -/
def extendHi (lines : List (List Char)) (hi : Nat) : Nat :=
  extendHiAux lines lines.length hi

/-- Modelled from the spec: the cursor line clamped to `[0, total-1]`. -/
def cursorLine (snap : Snapshot) (pos : Pos) : Nat :=
  min pos.line (snap.lines.length - 1)

/-- Modelled from the spec: baseline lower bound `cursorLine - R`
(clamped at 0 by natural subtraction). -/
def baseLo (snap : Snapshot) (pos : Pos) : Nat :=
  cursorLine snap pos - windowRadius

/-- Modelled from the spec: baseline upper bound
`min (cursorLine + R) (total - 1)`. -/
def baseHi (snap : Snapshot) (pos : Pos) : Nat :=
  min (cursorLine snap pos + windowRadius) (snap.lines.length - 1)

/-- Final lower bound of the line window after blank extension. -/
def winLo (snap : Snapshot) (pos : Pos) : Nat :=
  extendLo snap.lines (baseLo snap pos)

/-- Final upper bound of the line window after blank extension. -/
def winHi (snap : Snapshot) (pos : Pos) : Nat :=
  extendHi snap.lines (baseHi snap pos)

/-- The literal cursor marker token `$CURSOR$`. -/
def MARKER : List Char := ['$', 'C', 'U', 'R', 'S', 'O', 'R', '$']

/-- Modelled from the spec: split a line's text at the cursor column and
insert the literal marker between the two halves. -/
def spliceMarker (line : List Char) (col : Nat) : List Char :=
  line.take col ++ MARKER ++ line.drop col

/-- Modelled from the spec: the selected lines of the Line-Window Selector,
rendered verbatim except the cursor's own line, which carries the marker. -/
def renderedLines (snap : Snapshot) (pos : Pos) : List (List Char) :=
  (List.range' (winLo snap pos) (winHi snap pos + 1 - winLo snap pos)).map fun i =>
    if i = cursorLine snap pos then spliceMarker (lineAt snap.lines i) pos.column
    else lineAt snap.lines i

/-- Tail part of newline-joining: prefixes each remaining line with `\n`. -/
def joinRest : List (List Char) → List Char
  | [] => []
  | l :: ls => '\n' :: (l ++ joinRest ls)

/-- Newline-join a list of lines (no trailing newline). -/
def joinNL : List (List Char) → List Char
  | [] => []
  | l :: ls => l ++ joinRest ls

/-- Modelled from the spec: wrap a body as a fenced code block tagged with
the language identifier. -/
def fenced (lang : List Char) (body : List Char) : List Char :=
  ("```".data ++ lang) ++ ('\n' :: body) ++ ('\n' :: "```".data)

/-- Modelled from the spec: full output of the Line-Window Selector. -/
def lineWindowText (snap : Snapshot) (pos : Pos) : List Char :=
  fenced snap.languageId (joinNL (renderedLines snap pos))

/-- Modelled from the spec: the Selection-Window Selector expands the
selection to whole lines — effective start `(start.line, 0)`, effective end
`(end.line, end-of-line)` — and renders those full lines. -/
def selectionLines (snap : Snapshot) (sel : SelRange) : List (List Char) :=
  (snap.lines.drop sel.startPos.line).take (sel.endPos.line + 1 - sel.startPos.line)

/-- Modelled from the spec: full output of the Selection-Window Selector. -/
def selectionText (snap : Snapshot) (sel : SelRange) : List Char :=
  fenced snap.languageId (joinNL (selectionLines snap sel))

/-- The three possible feedback segment payloads of the Retry-Feedback
Builder: a bare no-change notice, a full-content block carrying raw text, or
a cropped-content renderer keyed by file path and selection. -/
inductive FeedbackSeg where
  | noChange
  | fullContent (text : List Char)
  | cropped (filepath : String) (sel : SelRange)
deriving DecidableEq

/-- The raw full text of a snapshot (its lines newline-joined). -/
def fullText (snap : Snapshot) : List Char :=
  joinNL snap.lines

/-- Modelled from the spec: the Retry-Feedback Builder.  No feedback when
`failedEdits` is false; a bare no-change notice when the version is
unchanged; otherwise the current content, full for small files and cropped
(keyed by path) for large ones. -/
def buildFeedback (failedEdits : Bool) (snap : Snapshot) (requestVersion : Nat)
    (isLargeFile : Bool) (sel : SelRange) (filepath : String) : Option FeedbackSeg :=
  if failedEdits = false then none
  else if snap.version = requestVersion then some FeedbackSeg.noChange
  else if isLargeFile = false then some (FeedbackSeg.fullContent (fullText snap))
  else some (FeedbackSeg.cropped filepath sel)

/-- Numeric tag of the branch a feedback output came from: 0 = absent,
1 = no-change, 2 = full content, 3 = cropped content. -/
def branchTag : Option FeedbackSeg → Nat
  | none => 0
  | some FeedbackSeg.noChange => 1
  | some (FeedbackSeg.fullContent _) => 2
  | some (FeedbackSeg.cropped _ _) => 3

/-- Modelled from the spec: a `ToolCall` — identifier, name, serialized
argument payload. -/
structure ToolCallItem where
  id : String
  name : String
  args : String
deriving DecidableEq

/-- Modelled from the spec: a `ToolResult` — textual payload plus error
flag. -/
structure ToolResultItem where
  text : String
  hasError : Bool
deriving DecidableEq

/-- Modelled from the spec: a `CompletedToolCallRound` — the ordered
(call, result) pairs resolved together in one assistant turn. -/
structure ToolRound where
  calls : List (ToolCallItem × ToolResultItem)
deriving DecidableEq

/-- A segment of the assembled transcript: an assistant segment carrying a
round's calls, a tool segment carrying its results, or a trailing feedback
segment. -/
inductive Segment where
  | assistant (calls : List ToolCallItem)
  | tool (results : List ToolResultItem)
  | feedback (fb : FeedbackSeg)
deriving DecidableEq

/-- Modelled from the spec: the two consecutive segments emitted for one
round — all its calls, then all its results, in call order. -/
def roundSegments (r : ToolRound) : List Segment :=
  [Segment.assistant (r.calls.map Prod.fst), Segment.tool (r.calls.map Prod.snd)]

/-- Modelled from the spec: the Tool-Round Transcript Assembler.  Empty
history yields absent output; otherwise the rounds' segments in
chronological order followed by the optional retry-feedback segment. -/
def assembleRounds (rounds : List ToolRound) (failedEdits : Bool) (snap : Snapshot)
    (requestVersion : Nat) (isLargeFile : Bool) (sel : SelRange) (filepath : String) :
    Option (List Segment) :=
  if rounds.isEmpty then none
  else some (rounds.flatMap roundSegments ++
    ((buildFeedback failedEdits snap requestVersion isLargeFile sel filepath).toList.map
      Segment.feedback))

/-- An individual emitted transcript element: one tool call or one tool
result. -/
inductive TEvent where
  | call (c : ToolCallItem)
  | result (r : ToolResultItem)
deriving DecidableEq

/-- The elements a segment emits, in order (feedback emits no call/result
elements). -/
def segEvents : Segment → List TEvent
  | Segment.assistant cs => cs.map TEvent.call
  | Segment.tool rs => rs.map TEvent.result
  | Segment.feedback _ => []

/-- The flat sequence of call/result elements emitted by a segment list. -/
def transcriptEvents (segs : List Segment) : List TEvent :=
  segs.flatMap segEvents

/-- The canonical element block of a single round: all of its calls in
original order, then all of its results in the same order. -/
def roundEvents (r : ToolRound) : List TEvent :=
  r.calls.map (fun p => TEvent.call p.1) ++ r.calls.map (fun p => TEvent.result p.2)

/-- Number of occurrences of `pat` as a contiguous sublist of `s` (counted
at every start offset). -/
def countOccs (pat : List Char) : List Char → Nat
  | [] => 0
  | c :: rest => (if pat.isPrefixOf (c :: rest) then 1 else 0) + countOccs pat rest

/-- A JavaScript runtime value, as far as the skills-location code can
observe one: the configuration lookup is untyped at runtime. -/
inductive JSValue where
  | undef
  | jsnull
  | jsbool (b : Bool)
  | jsnum (n : Int)
  | jsstr (s : String)
  | jsobj (entries : List (String × JSValue))
  | jsarr (elems : List JSValue)

/-- Translation of `isObject` from `vs/base/common/types`: true exactly for
plain objects (not null, arrays, or other primitives). -/
def isObjectVal : JSValue → Bool
  | JSValue.jsobj _ => true
  | _ => false

/-- Strict equality with the boolean `true` (`value !== true` in the
source skips every other value). -/
def isTrueVal : JSValue → Bool
  | JSValue.jsbool true => true
  | _ => false

/-- The URI operations the resolver delegates to (external collaborators
`URI.joinPath` and `URI.file`), kept abstract. -/
structure UriOps (Uri : Type) where
  joinPath : Uri → String → Uri
  fileUri : String → Uri

/-- Translation of `CopilotCLISkills.getSkillsLocationsImpl`: iterate the
configured skills-location map in order, accumulating URIs for entries whose
value is strictly `true`:  `~/`-keys join the user home, absolute keys become
file URIs, relative keys join every workspace folder. -/
def getSkillsLocationsImpl {Uri : Type} (ops : UriOps Uri) (isAbs : String → Bool)
    (locations : JSValue) (userHome : Uri) (workspaceFolders : List Uri) : List Uri :=
  match locations with
  | JSValue.jsobj entries =>
    entries.foldl (fun acc kv =>
      let location := kv.1.trim
      let value := kv.2
      if isTrueVal value = false then acc
      else if location.startsWith "~/" then acc ++ [ops.joinPath userHome (location.drop 2)]
      else if isAbs location then acc ++ [ops.fileUri location]
      else acc ++ workspaceFolders.map (fun wf => ops.joinPath wf location)) []
  | _ => []

/-- The per-entry contribution claimed for the resolver, following the
claim's words: nothing unless the value is strictly true; `~/`-keys join
user home with the remainder; absolute keys give file URIs; relative keys
give one URI per workspace folder. -/
def skillsLocationsClaimed {Uri : Type} (ops : UriOps Uri) (isAbs : String → Bool)
    (locations : JSValue) (userHome : Uri) (workspaceFolders : List Uri) : List Uri :=
  match locations with
  | JSValue.jsobj entries =>
    entries.flatMap fun kv =>
      if isTrueVal kv.2 = false then []
      else
        let location := kv.1.trim
        if location.startsWith "~/" then [ops.joinPath userHome (location.drop 2)]
        else if isAbs location then [ops.fileUri location]
        else workspaceFolders.map (fun wf => ops.joinPath wf location)
  | _ => []

/-- State of `CopilotCLISkills`: the cached locations (the memoised promise)
and how many times the implementation has been recomputed. -/
structure SkillsCache (Uri : Type) where
  cached : Option (List Uri)
  computeCount : Nat

/-- Translation of the constructor's configuration-change subscription:
the cache is cleared exactly when the change affects the skills-location
key. -/
def onConfigChange {Uri : Type} (affectsSkillsKey : Bool) (st : SkillsCache Uri) :
    SkillsCache Uri :=
  if affectsSkillsKey then { st with cached := none } else st

/-- Translation of the constructor's workspace-folders subscription: any
folder change clears the cache. -/
def onWorkspaceFoldersChanged {Uri : Type} (st : SkillsCache Uri) : SkillsCache Uri :=
  { st with cached := none }

/-- The inputs `getSkillsLocationsImpl` reads when it runs. -/
structure SkillsEnv (Uri : Type) where
  ops : UriOps Uri
  isAbs : String → Bool
  locations : JSValue
  userHome : Uri
  workspaceFolders : List Uri

/-- Run the implementation against the current environment. -/
def computeSkills {Uri : Type} (env : SkillsEnv Uri) : List Uri :=
  getSkillsLocationsImpl env.ops env.isAbs env.locations env.userHome env.workspaceFolders

/-- Translation of `CopilotCLISkills.getSkillsLocations`: return the cached
value when present, otherwise compute once, cache and return it. -/
def getSkillsLocations {Uri : Type} (env : SkillsEnv Uri) (st : SkillsCache Uri) :
    SkillsCache Uri × List Uri :=
  match st.cached with
  | some v => (st, v)
  | none =>
    ({ cached := some (computeSkills env), computeCount := st.computeCount + 1 },
      computeSkills env)

/-- Concrete seven-line document used to instantiate the window theorems. -/
def demoSnap7 : Snapshot :=
  ⟨1, ["line 1".data, "line 2".data, "line 3".data, "line 4".data, "line 5".data,
       "line 6".data, "line 7".data], "ts".data, "/workspace/file.ts"⟩

/-- Concrete five-line document used to instantiate the selection theorem. -/
def demoSnap5 : Snapshot :=
  ⟨1, ["line 1".data, "line 2".data, "line 3".data, "line 4".data, "line 5".data],
    "ts".data, "/workspace/file.ts"⟩

/-- Concrete document with a blank run just below the baseline window. -/
def demoSnapBlank : Snapshot :=
  ⟨1, ["x".data, [], [], "a".data, "b".data, "c".data], "ts".data, "/workspace/file.ts"⟩

/-- Concrete single-line document whose text overlaps the marker token. -/
def demoSnapDollar : Snapshot :=
  ⟨1, ["$CURSOR".data], "ts".data, "/workspace/file.ts"⟩

/-! ## Theorems -/

/-- C1: the Retry-Feedback Builder realizes exactly a four-case state
machine: no feedback without failed edits; a bare no-change notice when the
version is unchanged; a full-content block for a changed small file; a
cropped-content block keyed by the file path for a changed large file; and
no other output shape is possible. -/
theorem c1_feedback_state_machine (failedEdits : Bool) (snap : Snapshot)
    (requestVersion : Nat) (isLargeFile : Bool) (sel : SelRange) (filepath : String) :
    (failedEdits = false →
      buildFeedback failedEdits snap requestVersion isLargeFile sel filepath = none) ∧
    (failedEdits = true → snap.version = requestVersion →
      buildFeedback failedEdits snap requestVersion isLargeFile sel filepath =
        some FeedbackSeg.noChange) ∧
    (failedEdits = true → snap.version ≠ requestVersion → isLargeFile = false →
      buildFeedback failedEdits snap requestVersion isLargeFile sel filepath =
        some (FeedbackSeg.fullContent (fullText snap))) ∧
    (failedEdits = true → snap.version ≠ requestVersion → isLargeFile = true →
      buildFeedback failedEdits snap requestVersion isLargeFile sel filepath =
        some (FeedbackSeg.cropped filepath sel)) ∧
    (buildFeedback failedEdits snap requestVersion isLargeFile sel filepath = none ∨
     buildFeedback failedEdits snap requestVersion isLargeFile sel filepath =
       some FeedbackSeg.noChange ∨
     buildFeedback failedEdits snap requestVersion isLargeFile sel filepath =
       some (FeedbackSeg.fullContent (fullText snap)) ∨
     buildFeedback failedEdits snap requestVersion isLargeFile sel filepath =
       some (FeedbackSeg.cropped filepath sel)) := by
  unfold buildFeedback
  by_cases hv : snap.version = requestVersion <;>
    cases failedEdits <;> cases isLargeFile <;> simp [hv]

/-- Witness for C1: a failed edit with an unchanged version yields the bare
no-change notice. -/
theorem c1_feedback_state_machine_witness :
    buildFeedback true ⟨5, [], [], "f"⟩ 5 false ⟨⟨0, 0⟩, ⟨0, 0⟩⟩ "p" =
      some FeedbackSeg.noChange :=
  (c1_feedback_state_machine true ⟨5, [], [], "f"⟩ 5 false ⟨⟨0, 0⟩, ⟨0, 0⟩⟩ "p").2.1
    rfl rfl

/-- C7: assembling the empty round list yields absent output (`none`), which
is a different value from every rendered segment list, in particular from an
empty one. -/
theorem c7_empty_rounds_absent (failedEdits : Bool) (snap : Snapshot)
    (requestVersion : Nat) (isLargeFile : Bool) (sel : SelRange) (filepath : String) :
    assembleRounds [] failedEdits snap requestVersion isLargeFile sel filepath = none ∧
    ∀ segs : List Segment, (none : Option (List Segment)) ≠ some segs := by
  exact ⟨rfl, fun segs h => Option.noConfusion h⟩

/-- Witness for C7 at a concrete request. -/
theorem c7_empty_rounds_absent_witness :
    assembleRounds [] false ⟨0, [], [], "f"⟩ 0 false ⟨⟨0, 0⟩, ⟨0, 0⟩⟩ "p" = none ∧
    (none : Option (List Segment)) ≠ some [] :=
  ⟨(c7_empty_rounds_absent false ⟨0, [], [], "f"⟩ 0 false ⟨⟨0, 0⟩, ⟨0, 0⟩⟩ "p").1,
   (c7_empty_rounds_absent false ⟨0, [], [], "f"⟩ 0 false ⟨⟨0, 0⟩, ⟨0, 0⟩⟩ "p").2 []⟩

/-- C8: the changed-vs-unchanged decision of the Retry-Feedback Builder
depends only on the failed-edit flag, the outcome of the version comparison
and the large-file flag — never on the document text, selection or path; and
whenever the version differs the attach-content branch is taken, so a
version bump with identical text still counts as changed. -/
theorem c8_version_only_branching :
    (∀ (failedEdits isLargeFile : Bool) (s1 s2 : Snapshot) (rv1 rv2 : Nat)
       (sel1 sel2 : SelRange) (p1 p2 : String),
       ((s1.version = rv1) ↔ (s2.version = rv2)) →
       branchTag (buildFeedback failedEdits s1 rv1 isLargeFile sel1 p1) =
         branchTag (buildFeedback failedEdits s2 rv2 isLargeFile sel2 p2)) ∧
    (∀ (snap : Snapshot) (rv : Nat) (isLargeFile : Bool) (sel : SelRange) (p : String),
       snap.version ≠ rv →
       branchTag (buildFeedback true snap rv isLargeFile sel p) =
         if isLargeFile then 3 else 2) := by
  constructor
  · intro failedEdits isLargeFile s1 s2 rv1 rv2 sel1 sel2 p1 p2 hiff
    by_cases h1 : s1.version = rv1
    · have h2 : s2.version = rv2 := hiff.mp h1
      cases failedEdits <;> cases isLargeFile <;> simp [buildFeedback, branchTag, h1, h2]
    · have h2 : ¬ s2.version = rv2 := fun h => h1 (hiff.mpr h)
      cases failedEdits <;> cases isLargeFile <;> simp [buildFeedback, branchTag, h1, h2]
  · intro snap rv isLargeFile sel p hne
    cases isLargeFile <;> simp [buildFeedback, branchTag, hne]

/-- Witness for C8: two requests with different snapshots and versions but
the same version-comparison outcome land in the same branch. -/
theorem c8_version_only_branching_witness :
    branchTag (buildFeedback true ⟨1, [], [], "a"⟩ 1 false ⟨⟨0, 0⟩, ⟨0, 0⟩⟩ "p") =
      branchTag (buildFeedback true ⟨2, [['x']], ['t'], "b"⟩ 2 false ⟨⟨0, 0⟩, ⟨1, 1⟩⟩ "q") :=
  c8_version_only_branching.1 true false ⟨1, [], [], "a"⟩ ⟨2, [['x']], ['t'], "b"⟩ 1 2
    ⟨⟨0, 0⟩, ⟨0, 0⟩⟩ ⟨⟨0, 0⟩, ⟨1, 1⟩⟩ "p" "q" (by decide)

/-- Folding the skills-location accumulator over the entries equals the
flat-mapped per-entry contributions. -/
theorem skills_foldl_spec {Uri : Type} (ops : UriOps Uri) (isAbs : String → Bool)
    (userHome : Uri) (workspaceFolders : List Uri) :
    ∀ (entries : List (String × JSValue)) (acc : List Uri),
      entries.foldl (fun acc kv =>
        let location := kv.1.trim
        let value := kv.2
        if isTrueVal value = false then acc
        else if location.startsWith "~/" then
          acc ++ [ops.joinPath userHome (location.drop 2)]
        else if isAbs location then acc ++ [ops.fileUri location]
        else acc ++ workspaceFolders.map (fun wf => ops.joinPath wf location)) acc =
      acc ++ entries.flatMap (fun kv =>
        if isTrueVal kv.2 = false then []
        else
          let location := kv.1.trim
          if location.startsWith "~/" then [ops.joinPath userHome (location.drop 2)]
          else if isAbs location then [ops.fileUri location]
          else workspaceFolders.map (fun wf => ops.joinPath wf location)) := by
  intro entries
  induction entries with
  | nil => intro acc; simp
  | cons kv rest ih =>
    intro acc
    rw [List.foldl_cons, List.flatMap_cons]
    by_cases h1 : isTrueVal kv.2 = false
    · simp only [h1, if_true, ite_true, ih]
      simp [h1]
    · by_cases h2 : kv.1.trim.startsWith "~/" <;> by_cases h3 : isAbs kv.1.trim <;>
        simp [h1, h2, h3, ih, List.append_assoc]

/-- C9: `getSkillsLocationsImpl` returns exactly the URIs described by the
claim — empty for a non-object configuration, contributions only from
strictly-true entries, trimmed keys, `~/` joined to the user home, absolute
keys as file URIs, relative keys joined to every workspace folder, in map
iteration order. -/
theorem c9_skills_locations_impl {Uri : Type} (ops : UriOps Uri) (isAbs : String → Bool)
    (locations : JSValue) (userHome : Uri) (workspaceFolders : List Uri) :
    getSkillsLocationsImpl ops isAbs locations userHome workspaceFolders =
      skillsLocationsClaimed ops isAbs locations userHome workspaceFolders := by
  cases locations with
  | jsobj entries =>
    show entries.foldl _ [] = entries.flatMap _
    rw [skills_foldl_spec ops isAbs userHome workspaceFolders entries []]
    simp
  | undef => rfl
  | jsnull => rfl
  | jsbool b => rfl
  | jsnum n => rfl
  | jsstr s => rfl
  | jsarr xs => rfl

/-- C10: the skills-locations cache is used while populated (identical
stored value, no recomputation, state unchanged), is cleared exactly by a
configuration change affecting the skills key or a workspace-folder change,
and the next call after clearing recomputes from the then-current
environment. -/
theorem c10_cache_lifecycle {Uri : Type} (env : SkillsEnv Uri) (st : SkillsCache Uri)
    (v : List Uri) :
    (st.cached = some v → getSkillsLocations env st = (st, v)) ∧
    ((onConfigChange true st).cached = none) ∧
    (onConfigChange false st = st) ∧
    ((onWorkspaceFoldersChanged st).cached = none) ∧
    (st.cached = none →
      getSkillsLocations env st =
        ({ cached := some (computeSkills env), computeCount := st.computeCount + 1 },
          computeSkills env)) := by
  refine ⟨?_, ?_, ?_, ?_, ?_⟩
  · intro h; unfold getSkillsLocations; rw [h]
  · rfl
  · rfl
  · rfl
  · intro h; unfold getSkillsLocations; rw [h]

/-- Witness for C10: a populated cache is returned as-is, without
recomputation. -/
theorem c10_cache_lifecycle_witness :
    getSkillsLocations
      (⟨⟨fun u _ => u, fun _ => 0⟩, fun _ => false, JSValue.undef, 0, []⟩ : SkillsEnv Nat)
      ⟨some [7], 0⟩ = (⟨some [7], 0⟩, [7]) :=
  (c10_cache_lifecycle
    (⟨⟨fun u _ => u, fun _ => 0⟩, fun _ => false, JSValue.undef, 0, []⟩ : SkillsEnv Nat)
    ⟨some [7], 0⟩ [7]).1 rfl

/-- The round segments' emitted elements are the rounds' canonical event
blocks. -/
theorem flatMap_roundSegments_events (rs : List ToolRound) :
    (rs.flatMap roundSegments).flatMap segEvents = rs.flatMap roundEvents := by
  induction rs with
  | nil => rfl
  | cons r rest ih =>
    simp only [List.flatMap_cons, List.flatMap_append, ih]
    simp [roundSegments, segEvents, roundEvents, Function.comp_def]

/-- Dropping `s` then taking `n` elements enumerates the elements at indices
`s, …, s+n-1`, as long as the slice stays inside the list. -/
theorem drop_take_eq_range'_map {α : Type} (d : α) (l : List α) :
    ∀ (n s : Nat), s + n ≤ l.length →
      (l.drop s).take n = (List.range' s n).map (fun i => l.getD i d) := by
  intro n
  induction n with
  | zero => intro s h; simp
  | succ n ih =>
    intro s h
    have hs : s < l.length := by omega
    rw [List.drop_eq_getElem_cons hs, List.range'_succ, List.take_succ_cons,
      List.map_cons]
    congr 1
    · rw [List.getD_eq_getElem?_getD, List.getElem?_eq_getElem hs]
      rfl
    · exact ih (s + 1) (by omega)

/-- C4: the Selection-Window Selector renders exactly the full text of every
line from the selection's start line to its end line inclusive; the rendered
lines depend only on the two line numbers (never on the columns, so an end
column of 0 still includes the end line), and their count is exactly
`end - start + 1`. -/
theorem c4_selection_whole_lines (snap : Snapshot) (sel : SelRange)
    (h1 : sel.startPos.line ≤ sel.endPos.line)
    (h2 : sel.endPos.line < snap.lines.length) :
    selectionLines snap sel =
      (List.range' sel.startPos.line (sel.endPos.line + 1 - sel.startPos.line)).map
        (lineAt snap.lines) ∧
    (∀ sel2 : SelRange, sel2.startPos.line = sel.startPos.line →
      sel2.endPos.line = sel.endPos.line →
      selectionLines snap sel2 = selectionLines snap sel) ∧
    (selectionLines snap sel).length = sel.endPos.line + 1 - sel.startPos.line := by
  refine ⟨?_, ?_, ?_⟩
  · exact drop_take_eq_range'_map [] snap.lines
      (sel.endPos.line + 1 - sel.startPos.line) sel.startPos.line (by omega)
  · intro sel2 hs he
    unfold selectionLines
    rw [hs, he]
  · unfold selectionLines
    rw [List.length_take, List.length_drop]
    omega

/-- Witness for C4: the test scenario — selection `(1,0)-(3,6)` over five
lines renders exactly lines 2, 3 and 4. -/
theorem c4_selection_whole_lines_witness :
    selectionLines demoSnap5 ⟨⟨1, 0⟩, ⟨3, 6⟩⟩ =
      ["line 2".data, "line 3".data, "line 4".data] := by
  rw [(c4_selection_whole_lines demoSnap5 ⟨⟨1, 0⟩, ⟨3, 6⟩⟩ (by decide) (by decide)).1]
  rfl

/-- The blank-run extension of the lower bound never grows the bound, walks
only over blank lines, and stops only at the file start or below a
non-blank line. -/
theorem extendLo_spec (lines : List (List Char)) :
    ∀ lo, extendLo lines lo ≤ lo ∧
      (∀ j, extendLo lines lo ≤ j → j < lo → isBlank (lineAt lines j) = true) ∧
      (extendLo lines lo = 0 ∨
        isBlank (lineAt lines (extendLo lines lo - 1)) = false) := by
  intro lo
  induction lo with
  | zero =>
    exact ⟨Nat.le_refl 0, fun j h1 h2 => absurd h2 (Nat.not_lt_zero j), Or.inl rfl⟩
  | succ lo ih =>
    by_cases hb : isBlank (lineAt lines lo) = true
    · have he : extendLo lines (lo + 1) = extendLo lines lo := by
        simp [extendLo, hb]
      rw [he]
      refine ⟨Nat.le_succ_of_le ih.1, ?_, ih.2.2⟩
      intro j hj1 hj2
      rcases Nat.lt_succ_iff_lt_or_eq.mp hj2 with h | h
      · exact ih.2.1 j hj1 h
      · rw [h]; exact hb
    · have hbf : isBlank (lineAt lines lo) = false := by
        cases hv : isBlank (lineAt lines lo)
        · rfl
        · exact absurd hv hb
      have he : extendLo lines (lo + 1) = lo + 1 := by
        simp [extendLo, hbf]
      rw [he]
      exact ⟨Nat.le_refl _, fun j h1 h2 => by omega, Or.inr (by simpa using hbf)⟩

/-- The blank-run extension of the upper bound never shrinks the bound,
walks only over existing blank lines, stops only at the file end or below a
non-blank line, and stays inside the file. -/
theorem extendHiAux_spec (lines : List (List Char)) :
    ∀ (fuel hi : Nat), lines.length ≤ hi + 1 + fuel →
      hi ≤ extendHiAux lines fuel hi ∧
      (∀ j, hi < j → j ≤ extendHiAux lines fuel hi →
        isBlank (lineAt lines j) = true) ∧
      (lines.length ≤ extendHiAux lines fuel hi + 1 ∨
        isBlank (lineAt lines (extendHiAux lines fuel hi + 1)) = false) ∧
      (hi < lines.length → extendHiAux lines fuel hi < lines.length) := by
  intro fuel
  induction fuel with
  | zero =>
    intro hi h
    have he : extendHiAux lines 0 hi = hi := rfl
    rw [he]
    exact ⟨Nat.le_refl _, fun j h1 h2 => by omega, Or.inl (by omega), fun h' => h'⟩
  | succ fuel ih =>
    intro hi h
    by_cases hc : hi + 1 < lines.length ∧ isBlank (lineAt lines (hi + 1)) = true
    · have he : extendHiAux lines (fuel + 1) hi = extendHiAux lines fuel (hi + 1) := by
        simp [extendHiAux, hc]
      have ih' := ih (hi + 1) (by omega)
      rw [he]
      refine ⟨Nat.le_trans (Nat.le_succ hi) ih'.1, ?_, ih'.2.2.1,
        fun _ => ih'.2.2.2 hc.1⟩
      intro j hj1 hj2
      rcases Nat.lt_or_ge (hi + 1) j with hgt | hle
      · exact ih'.2.1 j hgt hj2
      · have hje : j = hi + 1 := by omega
        rw [hje]; exact hc.2
    · have he : extendHiAux lines (fuel + 1) hi = hi := by
        simp only [extendHiAux, if_neg hc]
      rw [he]
      refine ⟨Nat.le_refl _, fun j h1 h2 => by omega, ?_, fun h' => h'⟩
      by_cases hlt : hi + 1 < lines.length
      · refine Or.inr ?_
        cases hv : isBlank (lineAt lines (hi + 1))
        · rfl
        · exact absurd ⟨hlt, hv⟩ hc
      · exact Or.inl (by omega)

/-- C5: whenever the line immediately outside the baseline window is blank,
the Line-Window Selector's bound is extended outward past every consecutive
blank line until a non-blank line or the file edge, symmetrically at both
bounds: the final bounds lie at or beyond the baseline bounds, every line
strictly between final and baseline bound is blank, and each final bound is
either at the file edge or adjacent to a non-blank line. -/
theorem c5_blank_boundary_extension (snap : Snapshot) (pos : Pos) :
    winLo snap pos ≤ baseLo snap pos ∧
    (∀ j, winLo snap pos ≤ j → j < baseLo snap pos →
      isBlank (lineAt snap.lines j) = true) ∧
    (winLo snap pos = 0 ∨
      isBlank (lineAt snap.lines (winLo snap pos - 1)) = false) ∧
    baseHi snap pos ≤ winHi snap pos ∧
    (∀ j, baseHi snap pos < j → j ≤ winHi snap pos →
      isBlank (lineAt snap.lines j) = true) ∧
    (snap.lines.length ≤ winHi snap pos + 1 ∨
      isBlank (lineAt snap.lines (winHi snap pos + 1)) = false) := by
  have hL := extendLo_spec snap.lines (baseLo snap pos)
  have hH := extendHiAux_spec snap.lines snap.lines.length (baseHi snap pos) (by omega)
  exact ⟨hL.1, hL.2.1, hL.2.2, hH.1, hH.2.1, hH.2.2.1⟩

/-- Witness for C5: with a cursor at the last line of `demoSnapBlank`, the
baseline lower bound is 3 and line 2, strictly between the extended bound
and the baseline bound, is blank. -/
theorem c5_blank_boundary_extension_witness :
    isBlank (lineAt demoSnapBlank.lines 2) = true :=
  (c5_blank_boundary_extension demoSnapBlank ⟨5, 0⟩).2.1 2 (by decide) (by decide)

/-- C6: for a cursor at least three lines from both file boundaries whose
baseline window edges meet only non-blank lines, the window is exactly the
two lines before the cursor line, the cursor line (with the marker spliced
in) and the two lines after it — no more and no fewer. -/
theorem c6_window_radius (snap : Snapshot) (pos : Pos)
    (h1 : 3 ≤ pos.line) (h2 : pos.line + 3 < snap.lines.length)
    (hb1 : isBlank (lineAt snap.lines (pos.line - 3)) = false)
    (hb2 : isBlank (lineAt snap.lines (pos.line + 3)) = false) :
    winLo snap pos = pos.line - 2 ∧ winHi snap pos = pos.line + 2 ∧
    renderedLines snap pos =
      [lineAt snap.lines (pos.line - 2), lineAt snap.lines (pos.line - 1),
       spliceMarker (lineAt snap.lines pos.line) pos.column,
       lineAt snap.lines (pos.line + 1), lineAt snap.lines (pos.line + 2)] := by
  have hcur : cursorLine snap pos = pos.line := by
    unfold cursorLine
    omega
  have hlo0 : baseLo snap pos = pos.line - 2 := by
    unfold baseLo windowRadius
    rw [hcur]
  have hhi0 : baseHi snap pos = pos.line + 2 := by
    unfold baseHi windowRadius
    rw [hcur]
    omega
  have hsplit : pos.line - 2 = (pos.line - 3) + 1 := by omega
  have hlo : winLo snap pos = pos.line - 2 := by
    unfold winLo
    rw [hlo0, hsplit]
    simp only [extendLo, hb1, Bool.false_eq_true, if_false]
  obtain ⟨m, hm⟩ : ∃ m, snap.lines.length = m + 1 := ⟨snap.lines.length - 1, by omega⟩
  have hhi : winHi snap pos = pos.line + 2 := by
    unfold winHi extendHi
    rw [hhi0, hm]
    have hcond : ¬(pos.line + 2 + 1 < snap.lines.length ∧
        isBlank (lineAt snap.lines (pos.line + 2 + 1)) = true) := by
      intro hc
      have : isBlank (lineAt snap.lines (pos.line + 3)) = true := hc.2
      rw [hb2] at this
      cases this
    simp only [extendHiAux, if_neg hcond]
  refine ⟨hlo, hhi, ?_⟩
  unfold renderedLines
  rw [hlo, hhi, hcur]
  obtain ⟨k, hk⟩ : ∃ k, pos.line = k + 2 := ⟨pos.line - 2, by omega⟩
  rw [hk]
  have hn : k + 2 + 2 + 1 - (k + 2 - 2) = 5 := by omega
  rw [hn]
  have hr : List.range' (k + 2 - 2) 5 = [k, k + 1, k + 2, k + 3, k + 4] := rfl
  rw [hr]
  simp only [List.map_cons, List.map_nil]
  rw [if_neg (show ¬ k = k + 2 by omega), if_neg (show ¬ k + 1 = k + 2 by omega),
    if_neg (show ¬ k + 3 = k + 2 by omega), if_neg (show ¬ k + 4 = k + 2 by omega)]
  rfl

/-- Witness for C6: the test scenario — a seven-line file with the cursor at
`(3, 2)` renders exactly lines 2–6 with the marker splitting line 4. -/
theorem c6_window_radius_witness :
    renderedLines demoSnap7 ⟨3, 2⟩ =
      [lineAt demoSnap7.lines (3 - 2), lineAt demoSnap7.lines (3 - 1),
       spliceMarker (lineAt demoSnap7.lines 3) 2,
       lineAt demoSnap7.lines (3 + 1), lineAt demoSnap7.lines (3 + 2)] :=
  (c6_window_radius demoSnap7 ⟨3, 2⟩ (by decide) (by decide) (by decide)
    (by decide)).2.2

/-- C2: for any non-empty round history, the assembled transcript's emitted
call/result elements are exactly the rounds' canonical blocks in
chronological order — for each round all of its calls in original order,
then all of its results in the same order, with the next round's block
strictly after — so rounds are never interleaved or batched together. -/
theorem c2_transcript_ordering (rounds : List ToolRound) (failedEdits : Bool)
    (snap : Snapshot) (requestVersion : Nat) (isLargeFile : Bool) (sel : SelRange)
    (filepath : String) (hne : rounds ≠ []) :
    ∃ segs,
      assembleRounds rounds failedEdits snap requestVersion isLargeFile sel filepath =
        some segs ∧
      transcriptEvents segs = rounds.flatMap roundEvents := by
  refine ⟨rounds.flatMap roundSegments ++
    ((buildFeedback failedEdits snap requestVersion isLargeFile sel filepath).toList.map
      Segment.feedback), ?_, ?_⟩
  · unfold assembleRounds
    rw [if_neg (by simpa using hne)]
  · unfold transcriptEvents
    rw [List.flatMap_append]
    have hfb :
        ((buildFeedback failedEdits snap requestVersion isLargeFile sel
          filepath).toList.map Segment.feedback).flatMap segEvents = [] := by
      cases buildFeedback failedEdits snap requestVersion isLargeFile sel filepath <;> rfl
    rw [hfb, List.append_nil]
    exact flatMap_roundSegments_events rounds

/-- A pattern containing a character the text lacks is never a prefix of
that text. -/
theorem isPrefixOf_eq_false_of_mem_not_mem {pat s : List Char} (c : Char)
    (hp : c ∈ pat) (hs : c ∉ s) : pat.isPrefixOf s = false := by
  cases hpre : pat.isPrefixOf s
  · rfl
  · exact absurd (hs ((List.isPrefixOf_iff_prefix.mp hpre).subset hp)) (fun h => h)

/-- The marker never starts at a character other than `$`. -/
theorem marker_isPrefixOf_cons_ne (c : Char) (t : List Char) (hc : c ≠ '$') :
    MARKER.isPrefixOf (c :: t) = false := by
  have hb : ('$' == c) = false := beq_eq_false_iff_ne.mpr (Ne.symm hc)
  simp [MARKER, List.isPrefixOf, hb]

/-- Dollar-free text contains no marker occurrence at all. -/
theorem countOccs_eq_zero_of_nodollar (s : List Char) (hs : '$' ∉ s) :
    countOccs MARKER s = 0 := by
  induction s with
  | nil => rfl
  | cons c rest ih =>
    have h1 : MARKER.isPrefixOf (c :: rest) = false :=
      isPrefixOf_eq_false_of_mem_not_mem '$' (by decide) hs
    simp only [countOccs, h1, Bool.false_eq_true, if_false, Nat.zero_add]
    exact ih (fun h => hs (List.mem_cons_of_mem c h))

/-- Prepending dollar-free text does not change the marker count. -/
theorem countOccs_append_nodollar (u : List Char) (w : List Char) (hu : '$' ∉ u) :
    countOccs MARKER (u ++ w) = countOccs MARKER w := by
  induction u with
  | nil => rfl
  | cons c u' ih =>
    have hc : c ≠ '$' := by
      intro hcc
      exact hu (by simp [hcc])
    have h1 : MARKER.isPrefixOf (c :: (u' ++ w)) = false :=
      marker_isPrefixOf_cons_ne c (u' ++ w) hc
    show countOccs MARKER (c :: (u' ++ w)) = countOccs MARKER w
    simp only [countOccs, h1, Bool.false_eq_true, if_false, Nat.zero_add]
    exact ih (fun h => hu (List.mem_cons_of_mem c h))

/-- The marker followed by dollar-free text contains exactly one marker
occurrence. -/
theorem countOccs_marker_append (v : List Char) (hv : '$' ∉ v) :
    countOccs MARKER (MARKER ++ v) = 1 := by
  have hp0 : MARKER.isPrefixOf
      ('$' :: 'C' :: 'U' :: 'R' :: 'S' :: 'O' :: 'R' :: '$' :: v) = true :=
    List.isPrefixOf_iff_prefix.mpr ⟨v, rfl⟩
  have hC : MARKER.isPrefixOf ('C' :: 'U' :: 'R' :: 'S' :: 'O' :: 'R' :: '$' :: v) = false :=
    marker_isPrefixOf_cons_ne 'C' _ (by decide)
  have hUc : MARKER.isPrefixOf ('U' :: 'R' :: 'S' :: 'O' :: 'R' :: '$' :: v) = false :=
    marker_isPrefixOf_cons_ne 'U' _ (by decide)
  have hRa : MARKER.isPrefixOf ('R' :: 'S' :: 'O' :: 'R' :: '$' :: v) = false :=
    marker_isPrefixOf_cons_ne 'R' _ (by decide)
  have hS : MARKER.isPrefixOf ('S' :: 'O' :: 'R' :: '$' :: v) = false :=
    marker_isPrefixOf_cons_ne 'S' _ (by decide)
  have hO : MARKER.isPrefixOf ('O' :: 'R' :: '$' :: v) = false :=
    marker_isPrefixOf_cons_ne 'O' _ (by decide)
  have hRb : MARKER.isPrefixOf ('R' :: '$' :: v) = false :=
    marker_isPrefixOf_cons_ne 'R' _ (by decide)
  have h7 : MARKER.isPrefixOf ('$' :: v) = false := by
    have h8 : (['C', 'U', 'R', 'S', 'O', 'R', '$'] : List Char).isPrefixOf v = false :=
      isPrefixOf_eq_false_of_mem_not_mem '$' (by decide) hv
    simp [MARKER, List.isPrefixOf, h8]
  have hrest : countOccs MARKER v = 0 := countOccs_eq_zero_of_nodollar v hv
  show countOccs MARKER ('$' :: 'C' :: 'U' :: 'R' :: 'S' :: 'O' :: 'R' :: '$' :: v) = 1
  simp only [countOccs, hp0, hC, hUc, hRa, hS, hO, hRb, h7, hrest]
  simp

/-- Splicing the marker between two pieces of dollar-free text yields
exactly one marker occurrence. -/
theorem countOccs_splice (u v : List Char) (hu : '$' ∉ u) (hv : '$' ∉ v) :
    countOccs MARKER (u ++ (MARKER ++ v)) = 1 := by
  rw [countOccs_append_nodollar u (MARKER ++ v) hu, countOccs_marker_append v hv]

/-- Newline-joining dollar-free lines yields dollar-free text
(`joinRest` version). -/
theorem joinRest_nodollar (ls : List (List Char)) (h : ∀ l ∈ ls, '$' ∉ l) :
    '$' ∉ joinRest ls := by
  induction ls with
  | nil => simp [joinRest]
  | cons l ls ih =>
    simp only [joinRest]
    intro hmem
    rcases List.mem_cons.mp hmem with h1 | h2
    · exact absurd h1 (by decide)
    · rcases List.mem_append.mp h2 with h3 | h4
      · exact h l (List.mem_cons_self l ls) h3
      · exact ih (fun l' hl' => h l' (List.mem_cons_of_mem l hl')) h4

/-- `joinRest` distributes over a middle element. -/
theorem joinRest_split (x : List Char) :
    ∀ (A B : List (List Char)),
      joinRest (A ++ x :: B) = joinRest A ++ ('\n' :: (x ++ joinRest B)) := by
  intro A
  induction A with
  | nil => intro B; rfl
  | cons a A ih =>
    intro B
    show joinRest (a :: (A ++ x :: B)) = _
    rw [joinRest, ih B, joinRest]
    simp [List.append_assoc]

/-- Newline-joining a line list around a distinguished middle line wraps
that line between two dollar-free texts when all other lines are
dollar-free. -/
theorem joinNL_split (x : List Char) (A B : List (List Char))
    (hA : ∀ l ∈ A, '$' ∉ l) (hB : ∀ l ∈ B, '$' ∉ l) :
    ∃ U V, joinNL (A ++ x :: B) = U ++ (x ++ V) ∧ '$' ∉ U ∧ '$' ∉ V := by
  cases A with
  | nil =>
    exact ⟨[], joinRest B, rfl, by simp, joinRest_nodollar B hB⟩
  | cons a A' =>
    refine ⟨a ++ joinRest A' ++ ['\n'], joinRest B, ?_, ?_, joinRest_nodollar B hB⟩
    · show joinNL (a :: (A' ++ x :: B)) = _
      simp only [joinNL, joinRest_split x A' B, List.append_assoc, List.cons_append,
        List.singleton_append, List.nil_append]
    · intro hmem
      rcases List.mem_append.mp hmem with h12 | h3
      · rcases List.mem_append.mp h12 with h1 | h2
        · exact hA a (List.mem_cons_self a A') h1
        · exact joinRest_nodollar A'
            (fun l' hl' => hA l' (List.mem_cons_of_mem a hl')) h2
      · rcases List.mem_singleton.mp h3 with h
        exact absurd h (by decide)

/-- A line read inside the file belongs to the file's line list. -/
theorem lineAt_mem (lines : List (List Char)) (i : Nat) (h : i < lines.length) :
    lineAt lines i ∈ lines := by
  unfold lineAt
  rw [List.getD_eq_getElem?_getD, List.getElem?_eq_getElem h]
  exact List.getElem_mem h

/-- Reading an appended list right at the boundary yields the first element
of the right part. -/
theorem getElem?_append_cons_self {α : Type} (A B : List α) (c : α) (i : Nat)
    (h : i = A.length) : (A ++ c :: B)[i]? = some c := by
  subst h
  rw [List.getElem?_append_right (Nat.le_refl A.length)]
  simp

/-- Witness for C2 at a concrete two-round history. -/
theorem c2_transcript_ordering_witness :
    ∃ segs,
      assembleRounds
        [⟨[(⟨"c1", "read", "x"⟩, ⟨"r1", false⟩)]⟩,
         ⟨[(⟨"c2", "edit", "y"⟩, ⟨"r2", false⟩)]⟩]
        false ⟨0, [], [], "f"⟩ 0 false ⟨⟨0, 0⟩, ⟨0, 0⟩⟩ "p" = some segs ∧
      transcriptEvents segs =
        [⟨[(⟨"c1", "read", "x"⟩, ⟨"r1", false⟩)]⟩,
         ⟨[(⟨"c2", "edit", "y"⟩, ⟨"r2", false⟩)]⟩].flatMap roundEvents :=
  c2_transcript_ordering
    [⟨[(⟨"c1", "read", "x"⟩, ⟨"r1", false⟩)]⟩,
     ⟨[(⟨"c2", "edit", "y"⟩, ⟨"r2", false⟩)]⟩]
    false ⟨0, [], [], "f"⟩ 0 false ⟨⟨0, 0⟩, ⟨0, 0⟩⟩ "p" (by simp)

/-- C3 (counterexample to the claim as stated): on the single-line document
`"$CURSOR"` with the cursor at the end of the line, the rendered window
contains the marker token twice, not exactly once — the file's own text
overlaps the inserted marker. -/
theorem c3_marker_counterexample :
    countOccs MARKER (lineWindowText demoSnapDollar ⟨0, 7⟩) = 2 ∧
    1 < countOccs MARKER (lineWindowText demoSnapDollar ⟨0, 7⟩) := by
  constructor
  · decide
  · decide

/-- C3 (amended): for every cursor position inside a non-empty file none of
whose lines contains the character `$` and whose language id contains no
`$`, the rendered window contains the literal marker token exactly once,
and the cursor's own line is rendered as
`line.take col ++ MARKER ++ line.drop col` — no extra whitespace at either
boundary. -/
theorem c3_marker_exactly_once (snap : Snapshot) (pos : Pos)
    (hpos : pos.line < snap.lines.length)
    (hfree : ∀ l ∈ snap.lines, '$' ∉ l)
    (hlang : '$' ∉ snap.languageId) :
    countOccs MARKER (lineWindowText snap pos) = 1 ∧
    (renderedLines snap pos)[pos.line - winLo snap pos]? =
      some ((lineAt snap.lines pos.line).take pos.column ++ MARKER ++
        (lineAt snap.lines pos.line).drop pos.column) := by
  have hcur : cursorLine snap pos = pos.line := by
    unfold cursorLine
    omega
  have hbl : baseLo snap pos = pos.line - 2 := by
    unfold baseLo windowRadius
    rw [hcur]
  have hbh : baseHi snap pos = min (pos.line + 2) (snap.lines.length - 1) := by
    unfold baseHi windowRadius
    rw [hcur]
  have hlo_le : winLo snap pos ≤ pos.line := by
    have h := (extendLo_spec snap.lines (baseLo snap pos)).1
    unfold winLo
    omega
  have hhi_ge : pos.line ≤ winHi snap pos := by
    have h := (extendHiAux_spec snap.lines snap.lines.length (baseHi snap pos)
      (by omega)).1
    unfold winHi extendHi
    omega
  have hhi_lt : winHi snap pos < snap.lines.length := by
    have h := (extendHiAux_spec snap.lines snap.lines.length (baseHi snap pos)
      (by omega)).2.2.2
    unfold winHi extendHi
    exact h (by omega)
  have hRL : renderedLines snap pos =
      ((List.range' (winLo snap pos) (pos.line - winLo snap pos)).map
        (lineAt snap.lines)) ++
      spliceMarker (lineAt snap.lines pos.line) pos.column ::
        ((List.range' (pos.line + 1) (winHi snap pos - pos.line)).map
          (lineAt snap.lines)) := by
    unfold renderedLines
    rw [hcur]
    have hm : winLo snap pos + (pos.line - winLo snap pos) = pos.line := by omega
    have hn2 : (winHi snap pos + 1 - pos.line) + (pos.line - winLo snap pos) =
        winHi snap pos + 1 - winLo snap pos := by omega
    rw [← hn2, ← List.range'_append_1, hm,
      show winHi snap pos + 1 - pos.line = (winHi snap pos - pos.line) + 1 by omega,
      List.range'_succ, List.map_append, List.map_cons]
    congr 1
    · apply List.map_congr_left
      intro i hi2
      have hib := List.mem_range'_1.mp hi2
      rw [if_neg (by omega)]
    · congr 1
      · rw [if_pos rfl]
      · apply List.map_congr_left
        intro i hi2
        have hib := List.mem_range'_1.mp hi2
        rw [if_neg (by omega)]
  have hA : ∀ l ∈ (List.range' (winLo snap pos) (pos.line - winLo snap pos)).map
      (lineAt snap.lines), '$' ∉ l := by
    intro l hl
    rcases List.mem_map.mp hl with ⟨i, hi2, rfl⟩
    have hib := List.mem_range'_1.mp hi2
    exact hfree _ (lineAt_mem snap.lines i (by omega))
  have hB : ∀ l ∈ (List.range' (pos.line + 1) (winHi snap pos - pos.line)).map
      (lineAt snap.lines), '$' ∉ l := by
    intro l hl
    rcases List.mem_map.mp hl with ⟨i, hi2, rfl⟩
    have hib := List.mem_range'_1.mp hi2
    exact hfree _ (lineAt_mem snap.lines i (by omega))
  have hline : '$' ∉ lineAt snap.lines pos.line :=
    hfree _ (lineAt_mem snap.lines pos.line hpos)
  have ht : '$' ∉ (lineAt snap.lines pos.line).take pos.column :=
    fun h => hline (List.take_subset _ _ h)
  have hd : '$' ∉ (lineAt snap.lines pos.line).drop pos.column :=
    fun h => hline (List.drop_subset _ _ h)
  obtain ⟨U, V, hUV, hU, hV⟩ := joinNL_split
    (spliceMarker (lineAt snap.lines pos.line) pos.column) _ _ hA hB
  constructor
  · have htext : lineWindowText snap pos =
        (("```".data ++ snap.languageId) ++
          ('\n' :: (U ++ (lineAt snap.lines pos.line).take pos.column))) ++
        (MARKER ++ ((lineAt snap.lines pos.line).drop pos.column ++
          (V ++ ('\n' :: "```".data)))) := by
      unfold lineWindowText fenced
      rw [hRL, hUV]
      simp [spliceMarker, List.append_assoc]
    rw [htext]
    apply countOccs_splice
    · intro h
      rcases List.mem_append.mp h with h1 | h2
      · rcases List.mem_append.mp h1 with h3 | h4
        · exact absurd h3 (by decide)
        · exact hlang h4
      · rcases List.mem_cons.mp h2 with h5 | h6
        · exact absurd h5 (by decide)
        · rcases List.mem_append.mp h6 with h7 | h8
          · exact hU h7
          · exact ht h8
    · intro h
      rcases List.mem_append.mp h with h1 | h2
      · exact hd h1
      · rcases List.mem_append.mp h2 with h3 | h4
        · exact hV h3
        · rcases List.mem_cons.mp h4 with h5 | h6
          · exact absurd h5 (by decide)
          · exact absurd h6 (by decide)
  · rw [hRL]
    exact getElem?_append_cons_self _ _ _ _ (by simp)

/-- Witness for the amended C3: the test scenario — cursor `(3, 2)` in a
dollar-free seven-line file. -/
theorem c3_marker_exactly_once_witness :
    countOccs MARKER (lineWindowText demoSnap7 ⟨3, 2⟩) = 1 ∧
    (renderedLines demoSnap7 ⟨3, 2⟩)[3 - winLo demoSnap7 ⟨3, 2⟩]? =
      some ((lineAt demoSnap7.lines 3).take 2 ++ MARKER ++
        (lineAt demoSnap7.lines 3).drop 2) :=
  c3_marker_exactly_once demoSnap7 ⟨3, 2⟩ (by decide) (by decide) (by decide)

end VCChat
